import Mathlib

set_option maxHeartbeats 1000000

/-!
Verification development for the Mython interpreter core.

The definitions below are shallow embeddings of the C++ sources:
* `runtime.cpp` / `runtime.h` — dynamically typed value model
  (namespace `runtime` here),
* `lexer.cpp` / `lexer.h` — indentation-aware lexer
  (namespace `parse` here).

Statement bodies (`Executable::Execute`, implemented in `statement.cpp`,
which is outside the analysed sources) are abstracted: every method body
is identified by a numeric id and an arbitrary evaluation function
(`runtime.Context`) maps a body id and an argument closure to a result.
All theorems quantify over that function, so they hold for every possible
behaviour of method bodies.
-/

namespace runtime

/-- A method of a class: `struct Method` from `runtime.h`.  The executable
body is abstracted to a numeric id (see module docstring). -/
structure Method where
  name : String
  formal_params : List String
  body : Nat
deriving DecidableEq

/-- `class Class` from `runtime.h`: a name, an ordered list of methods and
an optional parent pointer.  The name-to-method index `metod_name_to_ptr_`
is recovered by `lookupTable` below. -/
inductive Class : Type where
  | mk (name : String) (methods : List Method) (parent : Option Class)

/-- The dynamically typed values: an `ObjectHolder` is either empty
(`None`) or holds a `Bool`, `Number`, `String`, `Class` or
`ClassInstance` object.  An instance carries an abstract address (the
identity that `os << this` prints), its class and its field closure. -/
inductive Obj : Type where
  | vNone : Obj
  | vBool : Bool → Obj
  | vNumber : Int → Obj
  | vString : String → Obj
  | vClass : Class → Obj
  | vInst : Nat → Class → List (String × Obj) → Obj

/-- `runtime::Closure`: a mapping from identifier to value, realised as an
association list with unique keys (insertion is by `closureInsert`). -/
abbrev Closure : Type := List (String × Obj)

/-- Abstract execution context: maps a method-body id and the argument
closure to the body's result (`Executable::Execute`, outside the analysed
sources).  Runtime errors are modelled as `Except.error msg`. -/
abbrev Context : Type := Nat → Closure → Except String Obj

def Class.name : Class → String
  | .mk n _ _ => n

def Class.methods : Class → List Method
  | .mk _ ms _ => ms

def Class.parent : Class → Option Class
  | .mk _ _ p => p

/-- The `metod_name_to_ptr_` index: built by inserting the methods in
order into a map, so the last method with a given name wins. -/
def lookupTable (methods : List Method) (nm : String) : Option Method :=
  methods.foldl (fun acc m => if m.name = nm then some m else acc) none

/-- `Class::GetMethod`: look in the class's own table; on a miss recurse
into the parent; return `none` at the root. -/
def Class.GetMethod : Class → String → Option Method
  | .mk _ methods parent, nm =>
    match lookupTable methods nm with
    | some m => some m
    | none =>
      match parent with
      | some p => p.GetMethod nm
      | none => none

/-- `ClassInstance::HasMethod`: the resolved method must exist and its
formal-parameter count must equal `argument_count`. -/
def ClassInstance.HasMethod (cls : Class) (nm : String) (argument_count : Nat) : Bool :=
  match cls.GetMethod nm with
  | some m => m.formal_params.length == argument_count
  | none => false

/-- Whether a closure already binds a key. -/
def closureHasKey : Closure → String → Bool
  | [], _ => false
  | p :: c, k => p.1 = k || closureHasKey c k

/-- `Closure::operator[] = v`: overwrite the binding if the key is
present, otherwise append a fresh binding (the association list keeps
keys unique, like `std::unordered_map`). -/
def closureInsert (c : Closure) (k : String) (v : Obj) : Closure :=
  if closureHasKey c k then
    List.map (fun p => if p.1 = k then (k, v) else p) c
  else c ++ [(k, v)]

/-- Reading a binding from a closure. -/
def closureFind : Closure → String → Option Obj
  | [], _ => none
  | p :: c, k => if p.1 = k then some p.2 else closureFind c k

/-- The scope built by `ClassInstance::Call`:
`args["self"] = Share(*this);` followed by
`args[formal_params[i]] = actual_args[i]` for each `i` in order. -/
def buildArgs (selfObj : Obj) (formals : List String) (acts : List Obj) : Closure :=
  (formals.zip acts).foldl (fun c p => closureInsert c p.1 p.2)
    (closureInsert [] "self" selfObj)

/-- `ClassInstance::Call`: require `HasMethod(name, |args|)` (otherwise
the runtime error "Cannot call method"), re-fetch the method, build the
argument scope and execute the body against it.  The inner `none` branch
is unreachable because `HasMethod` implies the lookup succeeds. -/
def ClassInstance.Call (env : Context) (a : Nat) (cls : Class)
    (flds : List (String × Obj)) (nm : String) (actual_args : List Obj) :
    Except String Obj :=
  if ClassInstance.HasMethod cls nm actual_args.length then
    match cls.GetMethod nm with
    | some m => env m.body (buildArgs (Obj.vInst a cls flds) m.formal_params actual_args)
    | none => .error "Cannot call method"
  else .error "Cannot call method"

/-- `runtime::IsTrue`: `Bool` yields its value, `Number` converts by
`≠ 0`, `String` by non-emptiness, everything else (including `None`,
classes and instances) is false. -/
def IsTrue : Obj → Bool
  | Obj.vBool b => b
  | Obj.vNumber n => n != 0
  | Obj.vString s => !s.isEmpty
  | _ => false

/-- `runtime::Equal`: both `None` → true; a `ClassInstance` on the left
dispatches to `__eq__` of arity 1 (coercing by `IsTrue`) or fails; equal
scalar kinds compare their values; everything else fails. -/
def Equal (env : Context) (lhs rhs : Obj) : Except String Bool :=
  match lhs, rhs with
  | Obj.vNone, Obj.vNone => .ok true
  | Obj.vInst a cls flds, _ =>
    if ClassInstance.HasMethod cls "__eq__" 1 then
      Except.map IsTrue (ClassInstance.Call env a cls flds "__eq__" [rhs])
    else .error "Cannot compare objects for equality"
  | Obj.vBool x, Obj.vBool y => .ok (x == y)
  | Obj.vNumber x, Obj.vNumber y => .ok (x == y)
  | Obj.vString x, Obj.vString y => .ok (x == y)
  | _, _ => .error "Cannot compare objects for equality"

/-- `runtime::Less`: a `ClassInstance` on the left dispatches to `__lt__`
of arity 1 or fails; equal scalar kinds compare with `<` (for `bool`:
`false < true`); everything else fails. -/
def Less (env : Context) (lhs rhs : Obj) : Except String Bool :=
  match lhs, rhs with
  | Obj.vInst a cls flds, _ =>
    if ClassInstance.HasMethod cls "__lt__" 1 then
      Except.map IsTrue (ClassInstance.Call env a cls flds "__lt__" [rhs])
    else .error "Cannot compare objects for less"
  | Obj.vBool x, Obj.vBool y => .ok (!x && y)
  | Obj.vNumber x, Obj.vNumber y => .ok (decide (x < y))
  | Obj.vString x, Obj.vString y => .ok (decide (x < y))
  | _, _ => .error "Cannot compare objects for less"

/-- Short-circuiting `||` on two fallible boolean computations: the right
side is evaluated only when the left yields `false`. -/
def shortCircuitOr (x : Except String Bool) (y : Unit → Except String Bool) :
    Except String Bool := do
  let a ← x
  if a then pure true else y ()

/-- `runtime::NotEqual`: `!Equal(lhs, rhs, context)`. -/
def NotEqual (env : Context) (lhs rhs : Obj) : Except String Bool :=
  Except.map (fun b => !b) (Equal env lhs rhs)

/-- `runtime::Greater`: `!(Less(lhs, rhs) || Equal(lhs, rhs))` with the
C++ short-circuit on `||`. -/
def Greater (env : Context) (lhs rhs : Obj) : Except String Bool :=
  Except.map (fun b => !b)
    (shortCircuitOr (Less env lhs rhs) (fun _ => Equal env lhs rhs))

/-- `runtime::LessOrEqual`: `!Greater(lhs, rhs)`. -/
def LessOrEqual (env : Context) (lhs rhs : Obj) : Except String Bool :=
  Except.map (fun b => !b) (Greater env lhs rhs)

/-- `runtime::GreaterOrEqual`: `!Less(lhs, rhs)`. -/
def GreaterOrEqual (env : Context) (lhs rhs : Obj) : Except String Bool :=
  Except.map (fun b => !b) (Less env lhs rhs)

/-- Rendering of an instance address by `os << this`; the concrete format
of a pointer is immaterial, the model prints the abstract address. -/
def addrString (a : Nat) : String := "0x" ++ toString a

/-- The observable bytes written by `Object::Print`.  `Bool` prints
`True`/`False`, `Number` and `String` print their values, `Class` prints
`Class <name>`.  A `ClassInstance` with a 0-ary `__str__` prints the
result of invoking it, recursively via `Print` (the `fuel` bounds that
recursion, which the C++ bounds only by the host stack); otherwise it
prints its address.  Printing an empty holder dereferences it
(`AssertIsValid`), modelled as an error. -/
def PrintObj (env : Context) : Nat → Obj → Except String String
  | _, Obj.vNone => .error "dereferenced empty ObjectHolder"
  | _, Obj.vBool b => .ok (if b then "True" else "False")
  | _, Obj.vNumber n => .ok (toString n)
  | _, Obj.vString s => .ok s
  | _, Obj.vClass c => .ok ("Class " ++ c.name)
  | fuel, Obj.vInst a cls flds =>
    if ClassInstance.HasMethod cls "__str__" 0 then
      match fuel with
      | 0 => .error "recursion limit"
      | f + 1 => do
        let r ← ClassInstance.Call env a cls flds "__str__" []
        PrintObj env f r
    else .ok (addrString a)


theorem closureFind_map_overwrite (c : Closure) (k : String) (v : Obj) :
    closureFind (List.map (fun p => if p.1 = k then (k, v) else p) c) k =
      if closureHasKey c k then some v else none := by
  induction c with
  | nil => simp [closureFind, closureHasKey]
  | cons p c ih =>
    by_cases hp : p.1 = k
    · simp [closureFind, closureHasKey, hp]
    · simp [closureFind, closureHasKey, hp, ih]

theorem closureFind_append_hit (c : Closure) (k : String) (v : Obj)
    (h : closureHasKey c k = false) :
    closureFind (c ++ [(k, v)]) k = some v := by
  induction c with
  | nil => simp [closureFind]
  | cons p c ih =>
    simp only [closureHasKey, Bool.or_eq_false_iff] at h
    have hp : ¬p.1 = k := by simpa using h.1
    simp [closureFind, hp, ih h.2]

theorem closureFind_map_ne (c : Closure) (k k' : String) (v : Obj) (h : k' ≠ k) :
    closureFind (List.map (fun p => if p.1 = k then (k, v) else p) c) k' =
      closureFind c k' := by
  induction c with
  | nil => simp
  | cons p c ih =>
    by_cases hp : p.1 = k
    · have h2 : ¬p.1 = k' := by
        rw [hp]
        exact fun hc => h hc.symm
      have h1 : ¬k = k' := fun hc => h hc.symm
      simp [closureFind, hp, h1, h2, ih]
    · have hfp : (if p.1 = k then (k, v) else p) = p := by simp [hp]
      rw [List.map_cons, hfp]
      by_cases hp' : p.1 = k' <;> simp [closureFind, hp', ih]

theorem closureFind_append_ne (c : Closure) (k k' : String) (v : Obj) (h : k' ≠ k) :
    closureFind (c ++ [(k, v)]) k' = closureFind c k' := by
  have h1 : ¬k = k' := fun hc => h hc.symm
  induction c with
  | nil => simp [closureFind, h1]
  | cons p c ih =>
    by_cases hp : p.1 = k' <;> simp [closureFind, hp, ih]

theorem closureFind_insert_self (c : Closure) (k : String) (v : Obj) :
    closureFind (closureInsert c k v) k = some v := by
  unfold closureInsert
  by_cases hany : closureHasKey c k = true
  · simp only [hany, if_true]
    rw [closureFind_map_overwrite]
    simp [hany]
  · rw [Bool.not_eq_true] at hany
    simp only [hany, Bool.false_eq_true, if_false]
    exact closureFind_append_hit c k v hany

theorem closureFind_insert_ne (c : Closure) (k k' : String) (v : Obj) (h : k' ≠ k) :
    closureFind (closureInsert c k v) k' = closureFind c k' := by
  unfold closureInsert
  by_cases hany : closureHasKey c k = true
  · simp only [hany, if_true]
    exact closureFind_map_ne c k k' v h
  · rw [Bool.not_eq_true] at hany
    simp only [hany, Bool.false_eq_true, if_false]
    exact closureFind_append_ne c k k' v h

theorem closureFind_foldl_notmem (ps : List (String × Obj)) (c : Closure) (k : String)
    (h : ∀ p ∈ ps, p.1 ≠ k) :
    closureFind (ps.foldl (fun c p => closureInsert c p.1 p.2) c) k = closureFind c k := by
  induction ps generalizing c with
  | nil => simp
  | cons p ps ih =>
    simp only [List.foldl_cons]
    rw [ih _ (fun q hq => h q (List.mem_cons_of_mem p hq))]
    exact closureFind_insert_ne c p.1 k p.2 (fun hcon => h p (List.mem_cons_self p ps) hcon.symm)

theorem closureFind_foldl_mem (ps : List (String × Obj)) (c : Closure) (k : String) (v : Obj)
    (hnd : (ps.map Prod.fst).Nodup) (hmem : (k, v) ∈ ps) :
    closureFind (ps.foldl (fun c p => closureInsert c p.1 p.2) c) k = some v := by
  induction ps generalizing c with
  | nil => simp at hmem
  | cons p ps ih =>
    simp only [List.map_cons, List.nodup_cons] at hnd
    rcases List.mem_cons.mp hmem with hp | hp
    · subst hp
      simp only [List.foldl_cons]
      rw [closureFind_foldl_notmem]
      · exact closureFind_insert_self c k v
      · intro q hq hcon
        exact hnd.1 (List.mem_map.mpr ⟨q, hq, hcon⟩)
    · simp only [List.foldl_cons]
      exact ih _ hnd.2 hp

theorem buildArgs_self (selfObj : Obj) (formals : List String) (acts : List Obj)
    (h : "self" ∉ formals) :
    closureFind (buildArgs selfObj formals acts) "self" = some selfObj := by
  unfold buildArgs
  rw [closureFind_foldl_notmem]
  · exact closureFind_insert_self [] "self" selfObj
  · intro p hp hcon
    exact h (hcon ▸ (List.of_mem_zip hp).1)

theorem buildArgs_formal (selfObj : Obj) (formals : List String) (acts : List Obj)
    (hlen : formals.length = acts.length) (hnd : formals.Nodup)
    (i : Nat) (h1 : i < formals.length) (h2 : i < acts.length) :
    closureFind (buildArgs selfObj formals acts) (formals.get ⟨i, h1⟩) =
      some (acts.get ⟨i, h2⟩) := by
  unfold buildArgs
  have hz : i < (formals.zip acts).length := by
    rw [List.length_zip]
    omega
  have hget : (formals.zip acts).get ⟨i, hz⟩ = (formals.get ⟨i, h1⟩, acts.get ⟨i, h2⟩) := by
    simp [List.get_eq_getElem, List.getElem_zip]
  have hmem : (formals.get ⟨i, h1⟩, acts.get ⟨i, h2⟩) ∈ formals.zip acts := by
    rw [← hget]
    exact List.get_mem _ _ _
  refine closureFind_foldl_mem _ _ _ _ ?_ hmem
  rw [List.map_fst_zip formals acts (by omega)]
  exact hnd

theorem buildArgs_other (selfObj : Obj) (formals : List String) (acts : List Obj)
    (k : String) (h1 : k ≠ "self") (h2 : k ∉ formals) :
    closureFind (buildArgs selfObj formals acts) k = none := by
  unfold buildArgs
  rw [closureFind_foldl_notmem]
  · unfold closureInsert
    simp [closureHasKey, closureFind]
    intro hcon
    exact h1 hcon.symm
  · intro p hp hcon
    exact h2 (hcon ▸ (List.of_mem_zip hp).1)

/-- Proper-ancestor relation along the (non-owning) parent chain. -/
inductive IsAncestor : Class → Class → Prop where
  | parent {c p : Class} : c.parent = some p → IsAncestor p c
  | step {c p a : Class} : c.parent = some p → IsAncestor a p → IsAncestor a c

theorem Class.GetMethod_mk (n : String) (ms : List Method) (p : Option Class)
    (nm : String) :
    Class.GetMethod (Class.mk n ms p) nm =
      (match lookupTable ms nm with
       | some m => some m
       | none =>
         match p with
         | some q => Class.GetMethod q nm
         | none => none) := by
  cases p with
  | some q => rw [Class.GetMethod.eq_1]
  | none => rw [Class.GetMethod.eq_2]

theorem getMethod_own_hit (B : Class) (nm : String) (m : Method)
    (h : lookupTable B.methods nm = some m) : Class.GetMethod B nm = some m := by
  cases B with
  | mk n ms p =>
    simp only [Class.methods] at h
    rw [Class.GetMethod_mk, h]

theorem getMethod_own_miss (B : Class) (nm : String)
    (h : lookupTable B.methods nm = none) :
    Class.GetMethod B nm =
      (match B.parent with
       | some p => Class.GetMethod p nm
       | none => none) := by
  cases B with
  | mk n ms p =>
    simp only [Class.methods] at h
    rw [Class.GetMethod_mk, h]
    rfl

theorem call_dispatch (env : Context) (a : Nat) (B : Class) (flds : List (String × Obj))
    (nm : String) (args : List Obj) (m : Method)
    (hg : Class.GetMethod B nm = some m)
    (hlen : m.formal_params.length = args.length) :
    ClassInstance.Call env a B flds nm args =
      env m.body (buildArgs (Obj.vInst a B flds) m.formal_params args) := by
  unfold ClassInstance.Call ClassInstance.HasMethod
  rw [hg]
  simp [hlen]

end runtime


namespace parse

/-- The token kinds of `lexer.h` (`parse::token_type`).  Number values are
modelled as the natural number denoted by the digit string (the claims
under verification do not involve numeric ranges). -/
inductive Tok : Type where
  | number (value : Nat)
  | id (value : String)
  | str (value : String)
  | char (value : Char)
  | kwClass | kwReturn | kwIf | kwElse | kwDef | kwPrint
  | kwAnd | kwOr | kwNot | kwNone | kwTrue | kwFalse
  | newline | indent | dedent | eof
  | eq | notEq | lessOrEq | greaterOrEq
deriving DecidableEq

/-- The two exception classes declared in `lexer.h`: `LexerError` and
`ParsingError` are distinct types (both derive `std::runtime_error`,
neither derives the other). -/
inductive LexFailure : Type where
  | lexerError (msg : String)
  | parsingError (msg : String)
deriving DecidableEq

/-- The lexer's mutable state: the token buffer `tokens_` and the running
indentation level `prev_indent`. -/
structure LexState where
  tokens : List Tok
  prevIndent : Nat
deriving DecidableEq

/-- `tokens_.push_back(t)`. -/
def pushTok (st : LexState) (t : Tok) : LexState :=
  { st with tokens := st.tokens ++ [t] }

/-- `Lexer::ProcessNextLine`: push a `Newline` unless the buffer is empty
or already ends with one. -/
def processNextLine (st : LexState) : LexState :=
  match st.tokens.getLast? with
  | some t => if t = Tok.newline then st else pushTok st Tok.newline
  | none => st

/-- `Lexer::ProcessIndent`: count leading spaces; if the first non-space
character is a newline (blank line) do nothing; otherwise emit the delta
to the previous level in `Indent` or `Dedent` tokens (one level per two
spaces, integer division). -/
def processIndent (st : LexState) (input : List Char) : LexState × List Char :=
  let space_count := (input.takeWhile fun c => c = ' ').length
  let rest := input.dropWhile fun c => c = ' '
  match rest with
  | '\n' :: _ => (st, rest)
  | _ =>
    let indent := space_count / 2
    if st.prevIndent < indent then
      ({ tokens := st.tokens ++ List.replicate (indent - st.prevIndent) Tok.indent,
         prevIndent := indent }, rest)
    else if indent < st.prevIndent then
      ({ tokens := st.tokens ++ List.replicate (st.prevIndent - indent) Tok.dedent,
         prevIndent := indent }, rest)
    else (st, rest)

/-- The keyword table shared by `Lexer::IsKeyWord` and
`Lexer::ProcessKeyWord` (the two C++ tables list the same twelve words). -/
def wordTok (w : String) : Tok :=
  if w = "class" then Tok.kwClass
  else if w = "return" then Tok.kwReturn
  else if w = "if" then Tok.kwIf
  else if w = "else" then Tok.kwElse
  else if w = "def" then Tok.kwDef
  else if w = "print" then Tok.kwPrint
  else if w = "or" then Tok.kwOr
  else if w = "None" then Tok.kwNone
  else if w = "not" then Tok.kwNot
  else if w = "and" then Tok.kwAnd
  else if w = "True" then Tok.kwTrue
  else if w = "False" then Tok.kwFalse
  else Tok.id w

/-- A character of an identifier body: `isalpha || isdigit || c == '_'`. -/
def isWordChar (c : Char) : Bool := c.isAlpha || c.isDigit || c = '_'

/-- ASCII `std::ispunct`. -/
def isPunctChar (c : Char) : Bool :=
  (33 ≤ c.toNat && c.toNat ≤ 47) || (58 ≤ c.toNat && c.toNat ≤ 64) ||
  (91 ≤ c.toNat && c.toNat ≤ 96) || (123 ≤ c.toNat && c.toNat ≤ 126)

/-- `Lexer::IsComparisonOperator` with `Lexer::ProcessComparisonOperator`:
the four two-character operators and their tokens. -/
def compOpTok (left right : Char) : Option Tok :=
  if left = '>' ∧ right = '=' then some Tok.greaterOrEq
  else if left = '<' ∧ right = '=' then some Tok.lessOrEq
  else if left = '=' ∧ right = '=' then some Tok.eq
  else if left = '!' ∧ right = '=' then some Tok.notEq
  else none

/-- The value of a digit string, as accumulated by `std::stoi`. -/
def digitsToNat (ds : List Char) : Nat :=
  ds.foldl (fun a c => a * 10 + (c.toNat - '0'.toNat)) 0

/-- The escape table of `Lexer::ProcessString`. -/
def escapeChar (e : Char) : Option Char :=
  if e = 'n' then some '\n'
  else if e = 't' then some '\t'
  else if e = 'r' then some '\r'
  else if e = '"' then some '"'
  else if e = '\'' then some '\''
  else if e = '\\' then some '\\'
  else none

/-- The scanning loop of `Lexer::ProcessString`, after the opening
delimiter `delim` has been consumed; `acc` is the accumulated value `s`.
End of input before the closing delimiter, a bare newline or carriage
return, and an unrecognised escape all throw `ParsingError`. -/
def processString (delim : Char) : List Char → String →
    Except LexFailure (String × List Char)
  | [], _ => .error (LexFailure.parsingError "String parsing error")
  | c :: rest, acc =>
    if c = delim then .ok (acc, rest)
    else if c = '\\' then
      match rest with
      | [] => .error (LexFailure.parsingError "String parsing error")
      | e :: rest2 =>
        match escapeChar e with
        | some ec => processString delim rest2 (acc.push ec)
        | none =>
          .error (LexFailure.parsingError ("Unrecognized escape sequence \\".push e))
    else if c = '\n' ∨ c = '\r' then
      .error (LexFailure.parsingError "Unexpected end of line")
    else processString delim rest (acc.push c)

/-- `Lexer::IgnoreComment`: consume up to, but not including, the
terminating newline (or to end of input). -/
def dropComment (input : List Char) : List Char :=
  input.dropWhile fun c => c ≠ '\n'

theorem dropWhile_length_le (p : Char → Bool) (l : List Char) :
    (l.dropWhile p).length ≤ l.length := by
  induction l with
  | nil => simp
  | cons c rest ih =>
    by_cases h : p c
    · simp [List.dropWhile, h]; omega
    · simp [List.dropWhile, h]

theorem processIndent_snd (st : LexState) (input : List Char) :
    (processIndent st input).2 = input.dropWhile fun c => c = ' ' := by
  unfold processIndent
  dsimp only
  split
  · rfl
  · split
    · rfl
    · split <;> rfl

theorem processString_rest_length (delim : Char) (l : List Char) (acc : String) :
    ∀ s r, processString delim l acc = .ok (s, r) → r.length ≤ l.length := by
  induction l, acc using processString.induct delim with
  | case1 acc =>
    intro s r h; rw [processString.eq_def] at h; simp at h
  | case2 rest acc =>
    intro s r h
    rw [processString.eq_def] at h
    simp at h
    simp [← h.2]
  | case3 acc hd =>
    intro s r h
    rw [processString.eq_def] at h
    simp [hd] at h
  | case4 acc e rest2 ec he hd ih =>
    intro s r h
    rw [processString.eq_def] at h
    simp [hd, he] at h
    have := ih _ _ h
    simp; omega
  | case5 acc e rest2 he hd =>
    intro s r h
    rw [processString.eq_def] at h
    simp [hd, he] at h
  | case6 c rest acc hc hb hnl =>
    intro s r h
    rw [processString.eq_def] at h
    simp [hc, hb, hnl] at h
  | case7 c rest acc hc hb hnl ih =>
    intro s r h
    rw [processString.eq_def] at h
    simp [hc, hb, hnl] at h
    have := ih _ _ h
    simp; omega

theorem processString_error_parsing (delim : Char) (l : List Char) (acc : String) :
    ∀ e, processString delim l acc = .error e → ∃ msg, e = LexFailure.parsingError msg := by
  induction l, acc using processString.induct delim with
  | case1 acc =>
    intro e h; rw [processString.eq_def] at h; simp at h; exact ⟨_, h.symm⟩
  | case2 rest acc =>
    intro e h; rw [processString.eq_def] at h; simp at h
  | case3 acc hd =>
    intro e h; rw [processString.eq_def] at h; simp [hd] at h; exact ⟨_, h.symm⟩
  | case4 acc e rest2 ec he hd ih =>
    intro x h
    rw [processString.eq_def] at h
    simp [hd, he] at h
    exact ih _ h
  | case5 acc e rest2 he hd =>
    intro x h
    rw [processString.eq_def] at h
    simp [hd, he] at h
    exact ⟨_, h.symm⟩
  | case6 c rest acc hc hb hnl =>
    intro e h
    rw [processString.eq_def] at h
    simp [hc, hb, hnl] at h
    exact ⟨_, h.symm⟩
  | case7 c rest acc hc hb hnl ih =>
    intro e h
    rw [processString.eq_def] at h
    simp [hc, hb, hnl] at h
    exact ih _ h

/-- The driving loop: `Lexer::ProcessAllTokens`'s
`while (input.good()) ProcessNextToken(input);`, with
`Lexer::ProcessNextToken` inlined.  Branch order follows the C++:
newline, string delimiters, identifier start, digit, comment,
punctuation (with one character of lookahead for the two-character
comparison operators); any other character is consumed silently. -/
def lexLoop (st : LexState) (input : List Char) : Except LexFailure LexState :=
  match input with
  | [] => .ok st
  | c :: rest =>
    if c = '\n' then
      let st1 := processNextLine st
      let p := processIndent st1 rest
      lexLoop p.1 p.2
    else if c = '"' ∨ c = '\'' then
      match h : processString c rest "" with
      | .ok (s, rest2) => lexLoop (pushTok st (Tok.str s)) rest2
      | .error e => .error e
    else if c = '_' ∨ c.isAlpha then
      lexLoop (pushTok st (wordTok (String.mk (c :: rest.takeWhile isWordChar))))
        (rest.dropWhile isWordChar)
    else if c.isDigit then
      lexLoop (pushTok st (Tok.number (digitsToNat (c :: rest.takeWhile Char.isDigit))))
        (rest.dropWhile Char.isDigit)
    else if c = '#' then
      lexLoop st (dropComment rest)
    else if isPunctChar c then
      match rest with
      | [] => .ok (pushTok st (Tok.char c))
      | d :: rest2 =>
        match compOpTok c d with
        | some t => lexLoop (pushTok st t) rest2
        | none => lexLoop (pushTok st (Tok.char c)) (d :: rest2)
    else lexLoop st rest
termination_by input.length
decreasing_by
  all_goals simp only [processIndent_snd, dropComment, List.length_cons]
  all_goals first
    | omega
    | exact Nat.lt_succ_of_le (dropWhile_length_le _ _)
    | exact Nat.lt_succ_of_le (processString_rest_length _ _ _ _ _ h)
    | (simp; omega)

/-- `Lexer::ProcessAllTokens` up to the final `Eof` handling: the initial
`ProcessIndent` on the raw input followed by the token loop.  The
resulting state also records the final indentation level. -/
def runLexer (input : List Char) : Except LexFailure LexState :=
  let p := processIndent { tokens := [], prevIndent := 0 } input
  lexLoop p.1 p.2

/-- The end-of-input handling of `Lexer::ProcessAllTokens`: when the
buffer is non-empty and does not end in `Dedent` or `Newline`, call
`ProcessNextLine`; then push `Eof`. -/
def finishTokens (st : LexState) : List Tok :=
  (match st.tokens.getLast? with
   | some t => if t = Tok.dedent ∨ t = Tok.newline then st else processNextLine st
   | none => st).tokens ++ [Tok.eof]

/-- The whole tokenisation performed by the `Lexer` constructor. -/
def processAllTokens (input : List Char) : Except LexFailure (List Tok) :=
  Except.map finishTokens (runLexer input)

end parse


namespace parse

/-- Number of occurrences of a token in a list. -/
def countTok (t : Tok) : List Tok → Nat
  | [] => 0
  | x :: xs => (if x = t then 1 else 0) + countTok t xs

theorem countTok_append (t : Tok) (l1 l2 : List Tok) :
    countTok t (l1 ++ l2) = countTok t l1 + countTok t l2 := by
  induction l1 with
  | nil => simp [countTok]
  | cons x xs ih => simp [countTok, ih]; omega

theorem countTok_replicate (t u : Tok) (k : Nat) :
    countTok t (List.replicate k u) = if u = t then k else 0 := by
  induction k with
  | zero => simp [countTok]
  | succ n ih =>
    rw [List.replicate_succ]
    simp only [countTok, ih]
    by_cases h : u = t <;> simp [h] <;> omega

theorem countTok_take_le (t : Tok) (l : List Tok) (n : Nat) :
    countTok t (l.take n) ≤ countTok t l := by
  induction l generalizing n with
  | nil => simp [countTok]
  | cons x xs ih =>
    cases n with
    | zero => simp [countTok]
    | succ m => simp [countTok]; have := ih m; omega

/-- Every prefix of the buffer holds at least as many `Indent`s as
`Dedent`s. -/
def prefixBalanced (l : List Tok) : Prop :=
  ∀ n, countTok Tok.dedent (l.take n) ≤ countTok Tok.indent (l.take n)

theorem prefixBalanced_nil : prefixBalanced [] := by
  intro n; simp [countTok]

theorem prefixBalanced_append_single {l : List Tok} (h : prefixBalanced l)
    {u : Tok} (hu : u ≠ Tok.dedent) : prefixBalanced (l ++ [u]) := by
  intro n
  rw [List.take_append_eq_append_take, countTok_append, countTok_append]
  have h1 : countTok Tok.dedent (List.take (n - l.length) [u]) = 0 := by
    cases Nat.eq_zero_or_pos (n - l.length) with
    | inl hz => simp [hz, countTok]
    | inr hp =>
      have : (n - l.length) = (n - l.length - 1) + 1 := by omega
      rw [this]
      simp [countTok, hu]
  have h2 := h n
  omega

theorem prefixBalanced_append_indents {l : List Tok} (h : prefixBalanced l) (k : Nat) :
    prefixBalanced (l ++ List.replicate k Tok.indent) := by
  intro n
  rw [List.take_append_eq_append_take, countTok_append, countTok_append]
  rw [List.take_replicate]
  have h1 : countTok Tok.dedent (List.replicate (min (n - l.length) k) Tok.indent) = 0 := by
    rw [countTok_replicate]; simp
  have h2 := h n
  omega

theorem prefixBalanced_append_dedents {l : List Tok} (h : prefixBalanced l) (k : Nat)
    (hk : countTok Tok.dedent l + k ≤ countTok Tok.indent l) :
    prefixBalanced (l ++ List.replicate k Tok.dedent) := by
  intro n
  rw [List.take_append_eq_append_take, countTok_append, countTok_append,
    List.take_replicate]
  rcases le_or_lt n l.length with h4 | h4
  · have h5 : n - l.length = 0 := by omega
    simp [h5, countTok]
    exact h n
  · have h6 : List.take n l = l := List.take_of_length_le (by omega)
    rw [h6]
    have h1 : countTok Tok.dedent (List.replicate (min (n - l.length) k) Tok.dedent) ≤ k := by
      rw [countTok_replicate]
      simp
    have h2 : countTok Tok.indent (List.replicate (min (n - l.length) k) Tok.dedent) = 0 := by
      rw [countTok_replicate]
      simp
    omega

end parse

namespace parse

/-- Adjacent tokens are not both `Newline`. -/
def NotNN (x y : Tok) : Prop := ¬(x = Tok.newline ∧ y = Tok.newline)

theorem chainNN_append_single {l : List Tok} (h : List.Chain' NotNN l)
    {u : Tok} (hu : u ≠ Tok.newline ∨ l.getLast? ≠ some Tok.newline) :
    List.Chain' NotNN (l ++ [u]) := by
  rw [List.chain'_append]
  refine ⟨h, List.chain'_singleton u, ?_⟩
  intro x hx y hy
  simp at hy
  subst hy
  intro hcon
  rcases hu with hu | hu
  · exact hu hcon.2
  · rw [hcon.1] at hx
    exact hu hx

theorem chainNN_replicate {u : Tok} (hu : u ≠ Tok.newline) (k : Nat) :
    List.Chain' NotNN (List.replicate k u) := by
  induction k with
  | zero => simp
  | succ n ih =>
    rw [List.replicate_succ]
    cases n with
    | zero => simp [List.chain'_singleton]
    | succ m =>
      rw [List.replicate_succ]
      refine List.Chain'.cons ?_ ?_
      · intro hcon; exact hu hcon.1
      · rw [← List.replicate_succ]
        exact ih

theorem chainNN_append_replicate {l : List Tok} (h : List.Chain' NotNN l)
    {u : Tok} (hu : u ≠ Tok.newline) (k : Nat) :
    List.Chain' NotNN (l ++ List.replicate k u) := by
  rw [List.chain'_append]
  refine ⟨h, chainNN_replicate hu k, ?_⟩
  intro x hx y hy
  intro hcon
  apply hu
  rw [← hcon.2]
  have : y ∈ List.replicate k u := by
    cases k with
    | zero => simp at hy
    | succ m =>
      rw [List.replicate_succ] at hy
      simp at hy
      simp [hy, List.replicate_succ]
  rw [List.eq_of_mem_replicate this]

/-- The loop invariant tying the token buffer to `prev_indent`:
every prefix is indent-balanced, the surplus of `Indent`s over
`Dedent`s equals `prev_indent`, and no two `Newline`s are adjacent. -/
def LexInv (st : LexState) : Prop :=
  prefixBalanced st.tokens ∧
  countTok Tok.indent st.tokens = countTok Tok.dedent st.tokens + st.prevIndent ∧
  List.Chain' NotNN st.tokens

theorem countTok_single_ne (t u : Tok) (h : u ≠ t) : countTok t [u] = 0 := by
  simp [countTok, h]

theorem pushTok_inv {st : LexState} (h : LexInv st) {t : Tok}
    (h1 : t ≠ Tok.indent) (h2 : t ≠ Tok.dedent) (h3 : t ≠ Tok.newline) :
    LexInv (pushTok st t) := by
  obtain ⟨hb, hc, hn⟩ := h
  refine ⟨prefixBalanced_append_single hb h2, ?_, chainNN_append_single hn (Or.inl h3)⟩
  simp [pushTok, countTok_append, countTok_single_ne _ _ h1, countTok_single_ne _ _ h2, hc]

theorem processNextLine_inv {st : LexState} (h : LexInv st) :
    LexInv (processNextLine st) := by
  unfold processNextLine
  obtain ⟨hb, hc, hn⟩ := h
  match hl : st.tokens.getLast? with
  | none => exact ⟨hb, hc, hn⟩
  | some t =>
    by_cases ht : t = Tok.newline
    · simp [ht]
      exact ⟨hb, hc, hn⟩
    · simp [ht]
      refine ⟨prefixBalanced_append_single hb (by simp), ?_,
        chainNN_append_single hn (Or.inr (by simp [hl, ht]))⟩
      simp [pushTok, countTok_append,
        countTok_single_ne Tok.indent Tok.newline (by simp),
        countTok_single_ne Tok.dedent Tok.newline (by simp), hc]

theorem processIndent_inv {st : LexState} (h : LexInv st) (input : List Char) :
    LexInv (processIndent st input).1 := by
  obtain ⟨hb, hc, hn⟩ := h
  unfold processIndent
  dsimp only
  split
  · exact ⟨hb, hc, hn⟩
  · split
    · rename_i hlt
      refine ⟨prefixBalanced_append_indents hb _, ?_,
        chainNN_append_replicate hn (by simp) _⟩
      simp [countTok_append, countTok_replicate, hc]
      omega
    · split
      · rename_i hnlt hlt
        refine ⟨prefixBalanced_append_dedents hb _ (by omega), ?_,
          chainNN_append_replicate hn (by simp) _⟩
        simp [countTok_append, countTok_replicate, hc]
        omega
      · exact ⟨hb, hc, hn⟩

end parse

namespace parse

theorem lexLoop_cons (st : LexState) (c : Char) (rest : List Char) :
    lexLoop st (c :: rest) =
      (if c = '\n' then
        lexLoop (processIndent (processNextLine st) rest).1
          (processIndent (processNextLine st) rest).2
      else if c = '"' ∨ c = '\'' then
        match processString c rest "" with
        | .ok (s, rest2) => lexLoop (pushTok st (Tok.str s)) rest2
        | .error e => .error e
      else if c = '_' ∨ c.isAlpha then
        lexLoop (pushTok st (wordTok (String.mk (c :: rest.takeWhile isWordChar))))
          (rest.dropWhile isWordChar)
      else if c.isDigit then
        lexLoop (pushTok st (Tok.number (digitsToNat (c :: rest.takeWhile Char.isDigit))))
          (rest.dropWhile Char.isDigit)
      else if c = '#' then lexLoop st (dropComment rest)
      else if isPunctChar c then
        match rest with
        | [] => .ok (pushTok st (Tok.char c))
        | d :: rest2 =>
          match compOpTok c d with
          | some t => lexLoop (pushTok st t) rest2
          | none => lexLoop (pushTok st (Tok.char c)) (d :: rest2)
      else lexLoop st rest) := by
  cases rest with
  | nil =>
    rw [lexLoop.eq_2]
    rcases hps : processString c [] "" with ⟨s, r⟩ | e <;> simp [hps]
  | cons d rest2 =>
    rw [lexLoop.eq_3]
    rcases hps : processString c (d :: rest2) "" with ⟨s, r⟩ | e <;> simp [hps]

theorem wordTok_ne_structural (w : String) :
    wordTok w ≠ Tok.indent ∧ wordTok w ≠ Tok.dedent ∧ wordTok w ≠ Tok.newline := by
  unfold wordTok
  split_ifs <;> simp

theorem compOpTok_ne_structural (a b : Char) (t : Tok) (h : compOpTok a b = some t) :
    t ≠ Tok.indent ∧ t ≠ Tok.dedent ∧ t ≠ Tok.newline := by
  unfold compOpTok at h
  split_ifs at h <;> simp at h <;> simp [← h]

theorem lexLoop_inv (st : LexState) (input : List Char) :
    ∀ st', LexInv st → lexLoop st input = .ok st' → LexInv st' := by
  induction st, input using lexLoop.induct with
  | case1 st =>
    intro st' hInv h
    rw [lexLoop.eq_1] at h
    simp at h
    rwa [← h]
  | case2 st rest st1 p ih =>
    intro st' hInv h
    rw [lexLoop_cons] at h
    simp at h
    exact ih st' (processIndent_inv (processNextLine_inv hInv) rest) h
  | case3 st c rest hne hq s rest2 hps ih =>
    intro st' hInv h
    rw [lexLoop_cons] at h
    simp [hne, hq, hps] at h
    exact ih st' (pushTok_inv hInv (by simp) (by simp) (by simp)) h
  | case4 st c rest hne hq e1 hps =>
    intro st' hInv h
    rw [lexLoop_cons] at h
    simp [hne, hq, hps] at h
  | case5 st c rest hne hq hw ih =>
    intro st' hInv h
    rw [lexLoop_cons] at h
    simp [hne, hq, hw] at h
    obtain ⟨w1, w2, w3⟩ := wordTok_ne_structural (String.mk (c :: List.takeWhile isWordChar rest))
    exact ih st' (pushTok_inv hInv w1 w2 w3) h
  | case6 st c rest hne hq hw hd ih =>
    intro st' hInv h
    rw [lexLoop_cons] at h
    simp [hne, hq, hw, hd] at h
    exact ih st' (pushTok_inv hInv (by simp) (by simp) (by simp)) h
  | case7 st rest h1 h2 h3 h4 ih =>
    intro st' hInv h
    rw [lexLoop_cons] at h
    simp at h
    exact ih st' hInv h
  | case8 st c hne hq hw hd hh hp =>
    intro st' hInv h
    rw [lexLoop_cons] at h
    simp [hne, hq, hw, hd, hh, hp] at h
    rw [← h]
    exact pushTok_inv hInv (by simp) (by simp) (by simp)
  | case9 st c hne hq hw hd hh hp d rest2 t hct ih =>
    intro st' hInv h
    rw [lexLoop_cons] at h
    simp [hne, hq, hw, hd, hh, hp, hct] at h
    obtain ⟨w1, w2, w3⟩ := compOpTok_ne_structural c d t hct
    exact ih st' (pushTok_inv hInv w1 w2 w3) h
  | case10 st c hne hq hw hd hh hp d rest2 hct ih =>
    intro st' hInv h
    rw [lexLoop_cons] at h
    simp [hne, hq, hw, hd, hh, hp, hct] at h
    exact ih st' (pushTok_inv hInv (by simp) (by simp) (by simp)) h
  | case11 st c rest hne hq hw hd hh hp ih =>
    intro st' hInv h
    rw [lexLoop_cons] at h
    simp [hne, hq, hw, hd, hh, hp] at h
    exact ih st' hInv h

theorem lexLoop_error_parsing (st : LexState) (input : List Char) :
    ∀ e, lexLoop st input = .error e → ∃ msg, e = LexFailure.parsingError msg := by
  induction st, input using lexLoop.induct with
  | case1 st =>
    intro e h; rw [lexLoop.eq_1] at h; simp at h
  | case2 st rest st1 p ih =>
    intro e h; rw [lexLoop_cons] at h; simp at h; exact ih e h
  | case3 st c rest hne hq s rest2 hps ih =>
    intro e h
    rw [lexLoop_cons] at h
    simp [hne, hq, hps] at h
    exact ih e h
  | case4 st c rest hne hq e1 hps =>
    intro e h
    rw [lexLoop_cons] at h
    simp [hne, hq, hps] at h
    rw [← h]
    exact processString_error_parsing c rest "" e1 hps
  | case5 st c rest hne hq hw ih =>
    intro e h
    rw [lexLoop_cons] at h
    simp [hne, hq, hw] at h
    exact ih e h
  | case6 st c rest hne hq hw hd ih =>
    intro e h
    rw [lexLoop_cons] at h
    simp [hne, hq, hw, hd] at h
    exact ih e h
  | case7 st rest h1 h2 h3 h4 ih =>
    intro e h
    rw [lexLoop_cons] at h
    simp at h
    exact ih e h
  | case8 st c hne hq hw hd hh hp =>
    intro e h
    rw [lexLoop_cons] at h
    simp [hne, hq, hw, hd, hh, hp] at h
  | case9 st c hne hq hw hd hh hp d rest2 t hct ih =>
    intro e h
    rw [lexLoop_cons] at h
    simp [hne, hq, hw, hd, hh, hp, hct] at h
    exact ih e h
  | case10 st c hne hq hw hd hh hp d rest2 hct ih =>
    intro e h
    rw [lexLoop_cons] at h
    simp [hne, hq, hw, hd, hh, hp, hct] at h
    exact ih e h
  | case11 st c rest hne hq hw hd hh hp ih =>
    intro e h
    rw [lexLoop_cons] at h
    simp [hne, hq, hw, hd, hh, hp] at h
    exact ih e h

end parse

namespace parse

theorem initState_inv : LexInv { tokens := [], prevIndent := 0 } :=
  ⟨prefixBalanced_nil, rfl, List.chain'_nil⟩

theorem runLexer_inv (input : List Char) (st : LexState) (h : runLexer input = .ok st) :
    LexInv st := by
  unfold runLexer at h
  exact lexLoop_inv _ _ st (processIndent_inv initState_inv input) h

theorem processNextLine_counts (st : LexState) (t : Tok) (ht : t ≠ Tok.newline) :
    countTok t (processNextLine st).tokens = countTok t st.tokens := by
  unfold processNextLine
  match hl : st.tokens.getLast? with
  | none => rfl
  | some u =>
    by_cases hu : u = Tok.newline
    · simp [hu]
    · simp [hu, pushTok, countTok_append, countTok_single_ne t Tok.newline (Ne.symm ht)]

theorem countTok_finishTokens (st : LexState) (t : Tok)
    (ht : t ≠ Tok.newline) (he : t ≠ Tok.eof) :
    countTok t (finishTokens st) = countTok t st.tokens := by
  unfold finishTokens
  match hl : st.tokens.getLast? with
  | none =>
    simp [countTok_append, countTok_single_ne t Tok.eof (Ne.symm he)]
  | some u =>
    by_cases hu : u = Tok.dedent ∨ u = Tok.newline
    · simp [hu, countTok_append, countTok_single_ne t Tok.eof (Ne.symm he)]
    · simp [hu, countTok_append, countTok_single_ne t Tok.eof (Ne.symm he),
        processNextLine_counts st t ht]

theorem finishTokens_balanced (st : LexState) (h : LexInv st) :
    prefixBalanced (finishTokens st) := by
  unfold finishTokens
  match hl : st.tokens.getLast? with
  | none => exact prefixBalanced_append_single h.1 (by simp)
  | some u =>
    by_cases hu : u = Tok.dedent ∨ u = Tok.newline
    · simp only [hu, if_true]
      exact prefixBalanced_append_single h.1 (by simp)
    · simp only [hu, if_false]
      exact prefixBalanced_append_single (processNextLine_inv h).1 (by simp)

theorem finishTokens_chain (st : LexState) (h : LexInv st) :
    List.Chain' NotNN (finishTokens st) := by
  unfold finishTokens
  match hl : st.tokens.getLast? with
  | none => exact chainNN_append_single h.2.2 (Or.inl (by simp))
  | some u =>
    by_cases hu : u = Tok.dedent ∨ u = Tok.newline
    · simp only [hu, if_true]
      exact chainNN_append_single h.2.2 (Or.inl (by simp))
    · simp only [hu, if_false]
      exact chainNN_append_single (processNextLine_inv h).2.2 (Or.inl (by simp))

theorem finishTokens_last (st : LexState) :
    (finishTokens st).getLast? = some Tok.eof := by
  unfold finishTokens
  match hl : st.tokens.getLast? with
  | none => simp
  | some u => by_cases hu : u = Tok.dedent ∨ u = Tok.newline <;> simp [hu]

theorem finishTokens_structure (st : LexState) (pre : List Tok)
    (h : finishTokens st = pre ++ [Tok.eof]) :
    pre = [] ∨ pre.getLast? = some Tok.newline ∨ pre.getLast? = some Tok.dedent := by
  unfold finishTokens at h
  match hl : st.tokens.getLast? with
  | none =>
    rw [hl] at h
    simp only [] at h
    have hpre : pre = st.tokens := ((List.append_inj' h rfl).1).symm
    have hnil : st.tokens = [] := by
      cases hst : st.tokens with
      | nil => rfl
      | cons x xs => rw [hst] at hl; simp [List.getLast?_concat] at hl
    exact Or.inl (hpre.trans hnil)
  | some u =>
    rw [hl] at h
    by_cases hu : u = Tok.dedent ∨ u = Tok.newline
    · simp only [hu, if_true] at h
      have hpre : pre = st.tokens := ((List.append_inj' h rfl).1).symm
      rcases hu with hu | hu
      · exact Or.inr (Or.inr (by rw [hpre, hl, hu]))
      · exact Or.inr (Or.inl (by rw [hpre, hl, hu]))
    · simp only [hu, if_false] at h
      have hpre : pre = (processNextLine st).tokens := ((List.append_inj' h rfl).1).symm
      have hnl : (processNextLine st).tokens = st.tokens ++ [Tok.newline] := by
        unfold processNextLine
        rw [hl]
        have hne : ¬u = Tok.newline := by
          intro hcon; exact hu (Or.inr hcon)
        simp [hne, pushTok]
      refine Or.inr (Or.inl ?_)
      rw [hpre, hnl, List.getLast?_concat]

end parse

namespace parse

theorem processNextLine_idem (st : LexState) :
    processNextLine (processNextLine st) = processNextLine st := by
  unfold processNextLine
  match hl : st.tokens.getLast? with
  | none =>
    match hst : st.tokens with
    | [] => simp
    | x :: xs => rw [hst] at hl; simp at hl
  | some u =>
    by_cases hu : u = Tok.newline
    · simp [hl, hu]
    · simp [hl, hu, pushTok, List.getLast?_concat]

theorem dropWhile_replicate_space (n : Nat) (rest : List Char) :
    List.dropWhile (fun c => c = ' ') (List.replicate n ' ' ++ rest) =
      List.dropWhile (fun c => c = ' ') rest := by
  induction n with
  | zero => simp
  | succ m ih => simp [List.replicate_succ, List.dropWhile, ih]

theorem processIndent_blank (st : LexState) (n : Nat) (rest : List Char) :
    processIndent st (List.replicate n ' ' ++ '\n' :: rest) = (st, '\n' :: rest) := by
  unfold processIndent
  dsimp only
  rw [dropWhile_replicate_space]
  simp [List.dropWhile]

theorem lexLoop_blank_line (st : LexState) (n : Nat) (rest : List Char) :
    lexLoop st ('\n' :: (List.replicate n ' ' ++ '\n' :: rest)) =
      lexLoop st ('\n' :: rest) := by
  rw [lexLoop_cons]
  simp [processIndent_blank]
  rw [lexLoop_cons]
  simp
  rw [lexLoop_cons]
  simp [processNextLine_idem]

end parse





/-- C4: `IsTrue` returns true exactly for a nonzero `Number`, the `Bool`
true, or a non-empty `String`; every other value (any `ClassInstance`,
any `Class`, and `None`) yields false, and `IsTrue` is total. -/
theorem C4_istrue_characterization (v : runtime.Obj) :
    runtime.IsTrue v = true ↔
      ((∃ n, v = runtime.Obj.vNumber n ∧ n ≠ 0) ∨ v = runtime.Obj.vBool true ∨
        (∃ s, v = runtime.Obj.vString s ∧ s ≠ "")) := by
  cases v <;> simp [runtime.IsTrue]
  · rename_i s
    rw [Bool.eq_false_iff]
    constructor
    · intro h hcon
      exact h ((String.isEmpty_iff s).mpr hcon)
    · intro h hcon
      exact h ((String.isEmpty_iff s).mp hcon)

/-- C5: method resolution searches the class's own table first, recurses
into the parent on a miss, and misses at the root; consequently a method
defined in the derived class is dispatched in preference to the parent's,
and an inherited method is dispatched when only the parent defines it. -/
theorem C5_method_resolution (B A : runtime.Class) (nm : String) :
    (∀ m, runtime.lookupTable B.methods nm = some m →
      runtime.Class.GetMethod B nm = some m)
  ∧ (runtime.lookupTable B.methods nm = none → B.parent = some A →
      runtime.Class.GetMethod B nm = runtime.Class.GetMethod A nm)
  ∧ (runtime.lookupTable B.methods nm = none → B.parent = none →
      runtime.Class.GetMethod B nm = none)
  ∧ (∀ env a flds args m, runtime.lookupTable B.methods nm = some m →
      m.formal_params.length = args.length →
      runtime.ClassInstance.Call env a B flds nm args =
        env m.body (runtime.buildArgs (runtime.Obj.vInst a B flds) m.formal_params args))
  ∧ (∀ env a flds args m, runtime.lookupTable B.methods nm = none → B.parent = some A →
      runtime.lookupTable A.methods nm = some m →
      m.formal_params.length = args.length →
      runtime.ClassInstance.Call env a B flds nm args =
        env m.body (runtime.buildArgs (runtime.Obj.vInst a B flds) m.formal_params args)) := by
  refine ⟨?_, ?_, ?_, ?_, ?_⟩
  · intro m h
    exact runtime.getMethod_own_hit B nm m h
  · intro h hp
    rw [runtime.getMethod_own_miss B nm h, hp]
  · intro h hp
    rw [runtime.getMethod_own_miss B nm h, hp]
  · intro env a flds args m h hlen
    exact runtime.call_dispatch env a B flds nm args m (runtime.getMethod_own_hit B nm m h) hlen
  · intro env a flds args m h hp hA hlen
    have hg : runtime.Class.GetMethod B nm = some m := by
      rw [runtime.getMethod_own_miss B nm h, hp]
      exact runtime.getMethod_own_hit A nm m hA
    exact runtime.call_dispatch env a B flds nm args m hg hlen

/-- C6: `ClassInstance::Call` fails with the runtime error exactly when
no method of that name and arity is reachable; on success the body runs
against a fresh scope binding `self` to the instance and each formal
parameter, in order, to the corresponding actual, with no other
bindings. -/
theorem C6_call_contract (env : runtime.Context) (a : Nat) (cls : runtime.Class)
    (flds : List (String × runtime.Obj)) (nm : String) (args : List runtime.Obj) :
    (runtime.ClassInstance.HasMethod cls nm args.length = false →
      runtime.ClassInstance.Call env a cls flds nm args = .error "Cannot call method")
  ∧ (∀ m, runtime.Class.GetMethod cls nm = some m →
      m.formal_params.length = args.length →
      runtime.ClassInstance.Call env a cls flds nm args =
        env m.body (runtime.buildArgs (runtime.Obj.vInst a cls flds) m.formal_params args)
      ∧ (m.formal_params.Nodup → "self" ∉ m.formal_params →
          runtime.closureFind
              (runtime.buildArgs (runtime.Obj.vInst a cls flds) m.formal_params args)
              "self" = some (runtime.Obj.vInst a cls flds)
        ∧ (∀ i (h1 : i < m.formal_params.length) (h2 : i < args.length),
            runtime.closureFind
                (runtime.buildArgs (runtime.Obj.vInst a cls flds) m.formal_params args)
                (m.formal_params.get ⟨i, h1⟩) = some (args.get ⟨i, h2⟩))
        ∧ (∀ k, k ≠ "self" → k ∉ m.formal_params →
            runtime.closureFind
                (runtime.buildArgs (runtime.Obj.vInst a cls flds) m.formal_params args)
                k = none))) := by
  constructor
  · intro h
    unfold runtime.ClassInstance.Call
    simp [h]
  · intro m hg hlen
    constructor
    · exact runtime.call_dispatch env a cls flds nm args m hg hlen
    · intro hnd hself
      refine ⟨runtime.buildArgs_self _ _ _ hself, ?_, ?_⟩
      · intro i h1 h2
        exact runtime.buildArgs_formal _ _ _ (by omega) hnd i h1 h2
      · intro k hk1 hk2
        exact runtime.buildArgs_other _ _ _ k hk1 hk2

/-- C10: a derived class's own method of the same name shadows an
ancestor's method before any arity check: `GetMethod` resolves by name
alone to the derived method, so `HasMethod` with the ancestor's arity is
false and `Call` with that many arguments fails, never consulting the
ancestor's matching-arity method. -/
theorem C10_shadowing_arity (B anc : runtime.Class) (nm : String)
    (mB mA : runtime.Method) (k : Nat)
    (hB : runtime.lookupTable B.methods nm = some mB)
    (hne : mB.formal_params.length ≠ k)
    (hanc : runtime.IsAncestor anc B)
    (hA : runtime.lookupTable anc.methods nm = some mA)
    (hk : mA.formal_params.length = k) :
    runtime.Class.GetMethod B nm = some mB
    ∧ runtime.ClassInstance.HasMethod B nm k = false
    ∧ (∀ env a flds args, args.length = k →
        runtime.ClassInstance.Call env a B flds nm args = .error "Cannot call method") := by
  have hg : runtime.Class.GetMethod B nm = some mB := runtime.getMethod_own_hit B nm mB hB
  have hh : runtime.ClassInstance.HasMethod B nm k = false := by
    unfold runtime.ClassInstance.HasMethod
    rw [hg]
    simp [hne]
  refine ⟨hg, hh, ?_⟩
  intro env a flds args hargs
  unfold runtime.ClassInstance.Call
  rw [hargs, hh]
  simp


/-- C1: `runtime::Equal` follows exactly the claimed rule order: both
`None` → true; else a `ClassInstance` left operand dispatches to a 1-ary
`__eq__` (result coerced by `IsTrue`) or fails; else equal scalar kinds
compare values; every remaining case (a `None` on one side only,
mismatched scalar kinds, a `Class` operand) fails with a runtime
error. -/
theorem C1_equal_rule_order (env : runtime.Context) (lhs rhs : runtime.Obj) :
    (lhs = runtime.Obj.vNone → rhs = runtime.Obj.vNone →
      runtime.Equal env lhs rhs = .ok true)
  ∧ (∀ a cls flds, lhs = runtime.Obj.vInst a cls flds →
      (runtime.ClassInstance.HasMethod cls "__eq__" 1 = true →
        runtime.Equal env lhs rhs =
          Except.map runtime.IsTrue
            (runtime.ClassInstance.Call env a cls flds "__eq__" [rhs]))
      ∧ (runtime.ClassInstance.HasMethod cls "__eq__" 1 = false →
        runtime.Equal env lhs rhs = .error "Cannot compare objects for equality"))
  ∧ (∀ x y, lhs = runtime.Obj.vBool x → rhs = runtime.Obj.vBool y →
      runtime.Equal env lhs rhs = .ok (x == y))
  ∧ (∀ x y, lhs = runtime.Obj.vNumber x → rhs = runtime.Obj.vNumber y →
      runtime.Equal env lhs rhs = .ok (x == y))
  ∧ (∀ x y, lhs = runtime.Obj.vString x → rhs = runtime.Obj.vString y →
      runtime.Equal env lhs rhs = .ok (x == y))
  ∧ (lhs = runtime.Obj.vNone → rhs ≠ runtime.Obj.vNone →
      runtime.Equal env lhs rhs = .error "Cannot compare objects for equality")
  ∧ (∀ x, lhs = runtime.Obj.vBool x → (∀ y, rhs ≠ runtime.Obj.vBool y) →
      runtime.Equal env lhs rhs = .error "Cannot compare objects for equality")
  ∧ (∀ x, lhs = runtime.Obj.vNumber x → (∀ y, rhs ≠ runtime.Obj.vNumber y) →
      runtime.Equal env lhs rhs = .error "Cannot compare objects for equality")
  ∧ (∀ x, lhs = runtime.Obj.vString x → (∀ y, rhs ≠ runtime.Obj.vString y) →
      runtime.Equal env lhs rhs = .error "Cannot compare objects for equality")
  ∧ (∀ c, lhs = runtime.Obj.vClass c →
      runtime.Equal env lhs rhs = .error "Cannot compare objects for equality") := by
  refine ⟨?_, ?_, ?_, ?_, ?_, ?_, ?_, ?_, ?_, ?_⟩
  · rintro rfl rfl
    rfl
  · rintro a cls flds rfl
    constructor
    · intro h
      simp [runtime.Equal, h]
    · intro h
      simp [runtime.Equal, h]
  · rintro x y rfl rfl
    rfl
  · rintro x y rfl rfl
    rfl
  · rintro x y rfl rfl
    rfl
  · rintro rfl hne
    cases rhs <;> first | exact absurd rfl hne | rfl
  · rintro x rfl hy
    cases rhs <;> first | exact absurd rfl (hy _) | rfl
  · rintro x rfl hy
    cases rhs <;> first | exact absurd rfl (hy _) | rfl
  · rintro x rfl hy
    cases rhs <;> first | exact absurd rfl (hy _) | rfl
  · rintro c rfl
    cases rhs <;> rfl

/-- C7: `NotEqual`, `Greater`, `LessOrEqual` and `GreaterOrEqual` are the
claimed boolean combinations of `Equal` and `Less` — `NotEqual` negates
`Equal`, `GreaterOrEqual` negates `Less`, `Greater` is true iff neither
`Less` nor `Equal`, `LessOrEqual` iff `Less` or `Equal` — and each fails
exactly when an underlying `Equal`/`Less` call it performs fails (the
`||` short-circuit skips `Equal` when `Less` already returned true). -/
theorem C7_derived_comparisons (env : runtime.Context) (a b : runtime.Obj) :
    (∀ e, runtime.Equal env a b = .ok e → runtime.NotEqual env a b = .ok (!e))
  ∧ (∀ msg, runtime.Equal env a b = .error msg → runtime.NotEqual env a b = .error msg)
  ∧ (∀ l, runtime.Less env a b = .ok l → runtime.GreaterOrEqual env a b = .ok (!l))
  ∧ (∀ msg, runtime.Less env a b = .error msg →
      runtime.GreaterOrEqual env a b = .error msg)
  ∧ (∀ l e, runtime.Less env a b = .ok l → runtime.Equal env a b = .ok e →
      runtime.Greater env a b = .ok (!(l || e)) ∧
        runtime.LessOrEqual env a b = .ok (l || e))
  ∧ (runtime.Less env a b = .ok true →
      runtime.Greater env a b = .ok false ∧ runtime.LessOrEqual env a b = .ok true)
  ∧ (∀ msg, runtime.Less env a b = .error msg →
      runtime.Greater env a b = .error msg ∧ runtime.LessOrEqual env a b = .error msg)
  ∧ (∀ msg, runtime.Less env a b = .ok false → runtime.Equal env a b = .error msg →
      runtime.Greater env a b = .error msg ∧
        runtime.LessOrEqual env a b = .error msg) := by
  refine ⟨?_, ?_, ?_, ?_, ?_, ?_, ?_, ?_⟩
  · intro e hE
    simp [runtime.NotEqual, hE, Except.map]
  · intro msg hE
    simp [runtime.NotEqual, hE, Except.map]
  · intro l hL
    simp [runtime.GreaterOrEqual, hL, Except.map]
  · intro msg hL
    simp [runtime.GreaterOrEqual, hL, Except.map]
  · intro l e hL hE
    cases l <;>
      simp [runtime.Greater, runtime.LessOrEqual, runtime.shortCircuitOr, hL, hE,
        Bind.bind, Except.bind, Except.map, Pure.pure, Except.pure]
  · intro hL
    constructor <;>
      simp [runtime.Greater, runtime.LessOrEqual, runtime.shortCircuitOr, hL,
        Bind.bind, Except.bind, Except.map, Pure.pure, Except.pure]
  · intro msg hL
    constructor <;>
      simp [runtime.Greater, runtime.LessOrEqual, runtime.shortCircuitOr, hL,
        Bind.bind, Except.bind, Except.map, Pure.pure, Except.pure]
  · intro msg hL hE
    constructor <;>
      simp [runtime.Greater, runtime.LessOrEqual, runtime.shortCircuitOr, hL, hE,
        Bind.bind, Except.bind, Except.map, Pure.pure, Except.pure]

/-- C8: printing a `ClassInstance` invokes a 0-ary `__str__` when the
class chain defines one and prints its result recursively via `Print`;
otherwise it prints the stable address identifier; and printing is
deterministic, so two prints of the same unchanged instance produce
identical bytes. -/
theorem C8_instance_print (env : runtime.Context) (fuel : Nat) (a : Nat)
    (cls : runtime.Class) (flds : List (String × runtime.Obj)) :
    (runtime.ClassInstance.HasMethod cls "__str__" 0 = true →
      runtime.PrintObj env (fuel + 1) (runtime.Obj.vInst a cls flds) = do
        let r ← runtime.ClassInstance.Call env a cls flds "__str__" []
        runtime.PrintObj env fuel r)
  ∧ (runtime.ClassInstance.HasMethod cls "__str__" 0 = false →
      runtime.PrintObj env fuel (runtime.Obj.vInst a cls flds) =
        .ok (runtime.addrString a))
  ∧ (∀ s1 s2, runtime.PrintObj env fuel (runtime.Obj.vInst a cls flds) = .ok s1 →
      runtime.PrintObj env fuel (runtime.Obj.vInst a cls flds) = .ok s2 →
        s1 = s2) := by
  refine ⟨?_, ?_, ?_⟩
  · intro h
    rw [runtime.PrintObj.eq_def]
    simp [h]
  · intro h
    rw [runtime.PrintObj.eq_def]
    simp [h]
  · intro s1 s2 h1 h2
    rw [h1] at h2
    exact Except.ok.inj h2


namespace runtime

/-- Body evaluation used by the witnesses: body 1 yields `Bool true`,
body 2 yields the string "A!", anything else yields `None`. -/
def envW : Context := fun b _ =>
  if b = 1 then .ok (Obj.vBool true)
  else if b = 2 then .ok (Obj.vString "A!")
  else .ok Obj.vNone

def methodEqW : Method := { name := "__eq__", formal_params := ["other"], body := 1 }

def methodStrW : Method := { name := "__str__", formal_params := [], body := 2 }

def methodM1W : Method := { name := "m", formal_params := ["x"], body := 3 }

def methodM2W : Method := { name := "m", formal_params := ["x", "y"], body := 4 }

def classAW : Class := Class.mk "A" [methodM2W] none

def classBW : Class := Class.mk "B" [methodM1W] (some classAW)

def classEqW : Class := Class.mk "E" [methodEqW] none

def classStrW : Class := Class.mk "S" [methodStrW] none

def classPlainW : Class := Class.mk "P" [] none

end runtime

/-- Witness for C1 at concrete inputs: each dispatch rule of `Equal`
exercised once. -/
theorem C1_equal_rule_order_witness :
    runtime.Equal runtime.envW runtime.Obj.vNone runtime.Obj.vNone = .ok true
  ∧ runtime.Equal runtime.envW (runtime.Obj.vInst 0 runtime.classEqW [])
      (runtime.Obj.vNumber 3) = .ok true
  ∧ runtime.Equal runtime.envW (runtime.Obj.vNumber 1) (runtime.Obj.vNumber 2) =
      .ok false
  ∧ runtime.Equal runtime.envW (runtime.Obj.vNumber 1) (runtime.Obj.vString "x") =
      .error "Cannot compare objects for equality"
  ∧ runtime.Equal runtime.envW (runtime.Obj.vInst 1 runtime.classPlainW [])
      runtime.Obj.vNone = .error "Cannot compare objects for equality" := by
  refine ⟨?_, ?_, ?_, ?_, ?_⟩
  · exact (C1_equal_rule_order runtime.envW _ _).1 rfl rfl
  · have h := ((C1_equal_rule_order runtime.envW
      (runtime.Obj.vInst 0 runtime.classEqW []) (runtime.Obj.vNumber 3)).2.1
      0 runtime.classEqW [] rfl).1 (by decide)
    rw [h]
    rfl
  · exact (C1_equal_rule_order runtime.envW _ _).2.2.2.1 1 2 rfl rfl
  · exact (C1_equal_rule_order runtime.envW _ _).2.2.2.2.2.2.2.1 1 rfl
      (fun y h => by cases h)
  · exact ((C1_equal_rule_order runtime.envW _ _).2.1 1 runtime.classPlainW [] rfl).2
      (by decide)

/-- Witness for C5 at concrete classes: `B` overrides `m`, and a class
with only an inherited method dispatches to the parent's. -/
theorem C5_method_resolution_witness :
    runtime.Class.GetMethod runtime.classBW "m" = some runtime.methodM1W
  ∧ runtime.ClassInstance.Call runtime.envW 0 runtime.classBW [] "m"
      [runtime.Obj.vNone] = .ok runtime.Obj.vNone
  ∧ runtime.Class.GetMethod (runtime.Class.mk "C" [] (some runtime.classAW)) "m" =
      some runtime.methodM2W := by
  refine ⟨?_, ?_, ?_⟩
  · exact (C5_method_resolution runtime.classBW runtime.classAW "m").1
      runtime.methodM1W rfl
  · have h := (C5_method_resolution runtime.classBW runtime.classAW "m").2.2.2.1
      runtime.envW 0 [] [runtime.Obj.vNone] runtime.methodM1W rfl rfl
    rw [h]
    rfl
  · have h := (C5_method_resolution (runtime.Class.mk "C" [] (some runtime.classAW))
      runtime.classAW "m").2.1 rfl rfl
    rw [h]
    exact (C5_method_resolution runtime.classAW runtime.classAW "m").1
      runtime.methodM2W rfl

/-- Witness for C6 at a concrete call: a missing arity fails, a matching
call binds `self` and the formals exactly. -/
theorem C6_call_contract_witness :
    runtime.ClassInstance.Call runtime.envW 0 runtime.classBW [] "m" [] =
      .error "Cannot call method"
  ∧ runtime.closureFind
      (runtime.buildArgs (runtime.Obj.vInst 0 runtime.classBW [])
        runtime.methodM1W.formal_params [runtime.Obj.vNumber 7]) "self" =
      some (runtime.Obj.vInst 0 runtime.classBW [])
  ∧ runtime.closureFind
      (runtime.buildArgs (runtime.Obj.vInst 0 runtime.classBW [])
        runtime.methodM1W.formal_params [runtime.Obj.vNumber 7]) "x" =
      some (runtime.Obj.vNumber 7)
  ∧ runtime.closureFind
      (runtime.buildArgs (runtime.Obj.vInst 0 runtime.classBW [])
        runtime.methodM1W.formal_params [runtime.Obj.vNumber 7]) "y" = none := by
  have hc := C6_call_contract runtime.envW 0 runtime.classBW [] "m" []
  have hb := (C6_call_contract runtime.envW 0 runtime.classBW [] "m"
      [runtime.Obj.vNumber 7]).2 runtime.methodM1W rfl rfl
  have hbind := hb.2 (by decide) (by decide)
  refine ⟨hc.1 (by decide), hbind.1, ?_, ?_⟩
  · have h := hbind.2.1 0 (by decide) (by decide)
    exact h
  · exact hbind.2.2 "y" (by decide) (by decide)

/-- Witness for C7 at concrete scalars (success cases) and at a `None`
left operand (failure cases). -/
theorem C7_derived_comparisons_witness :
    runtime.NotEqual runtime.envW (runtime.Obj.vNumber 1) (runtime.Obj.vNumber 2) =
      .ok true
  ∧ runtime.GreaterOrEqual runtime.envW (runtime.Obj.vNumber 1)
      (runtime.Obj.vNumber 2) = .ok false
  ∧ runtime.Greater runtime.envW (runtime.Obj.vNumber 1) (runtime.Obj.vNumber 2) =
      .ok false
  ∧ runtime.LessOrEqual runtime.envW (runtime.Obj.vNumber 1) (runtime.Obj.vNumber 2) =
      .ok true
  ∧ runtime.Greater runtime.envW runtime.Obj.vNone (runtime.Obj.vBool true) =
      .error "Cannot compare objects for less"
  ∧ runtime.NotEqual runtime.envW runtime.Obj.vNone (runtime.Obj.vBool true) =
      .error "Cannot compare objects for equality" := by
  have h12 := C7_derived_comparisons runtime.envW (runtime.Obj.vNumber 1)
    (runtime.Obj.vNumber 2)
  have hFail := C7_derived_comparisons runtime.envW runtime.Obj.vNone
    (runtime.Obj.vBool true)
  refine ⟨?_, ?_, ?_, ?_, ?_, ?_⟩
  · exact h12.1 false rfl
  · exact h12.2.2.1 true rfl
  · exact (h12.2.2.2.2.1 true false rfl rfl).1
  · exact (h12.2.2.2.2.1 true false rfl rfl).2
  · exact (hFail.2.2.2.2.2.2.1 "Cannot compare objects for less" rfl).1
  · exact hFail.2.1 "Cannot compare objects for equality" rfl

/-- Witness for C8: an instance with a 0-ary `__str__` prints that
method's result, one without prints its address. -/
theorem C8_instance_print_witness :
    runtime.PrintObj runtime.envW 1 (runtime.Obj.vInst 0 runtime.classStrW []) =
      .ok "A!"
  ∧ runtime.PrintObj runtime.envW 1 (runtime.Obj.vInst 3 runtime.classPlainW []) =
      .ok (runtime.addrString 3) := by
  constructor
  · have h := (C8_instance_print runtime.envW 0 0 runtime.classStrW []).1 (by decide)
    rw [h]
    rfl
  · exact (C8_instance_print runtime.envW 1 3 runtime.classPlainW []).2.1 (by decide)

/-- Witness for C10: `B` shadows the two-parameter `m` of its parent `A`
with a one-parameter `m`, so calling with two arguments fails. -/
theorem C10_shadowing_arity_witness :
    runtime.ClassInstance.HasMethod runtime.classBW "m" 2 = false
  ∧ runtime.ClassInstance.Call runtime.envW 0 runtime.classBW [] "m"
      [runtime.Obj.vNone, runtime.Obj.vNone] = .error "Cannot call method" := by
  have h := C10_shadowing_arity runtime.classBW runtime.classAW "m"
    runtime.methodM1W runtime.methodM2W 2 rfl (by decide)
    (runtime.IsAncestor.parent rfl) rfl rfl
  exact ⟨h.2.1, h.2.2 runtime.envW 0 [] [runtime.Obj.vNone, runtime.Obj.vNone] rfl⟩

namespace parse

/-- Whether a lexing outcome is a thrown `LexerError` (as opposed to a
`ParsingError` or a successful token stream). -/
def failsWithLexerError (r : Except LexFailure (List Tok)) : Bool :=
  match r with
  | .error (.lexerError _) => true
  | _ => false

/-- Counterexample to C2 as stated: lexing the unterminated string
literal `"abc` throws `ParsingError` — not `LexerError`, which is a
distinct exception class in `lexer.h`. -/
theorem C2_parsing_error_not_lexer_error :
    processAllTokens ("\"abc".toList) =
      .error (LexFailure.parsingError "String parsing error")
  ∧ failsWithLexerError (processAllTokens ("\"abc".toList)) = false := by
  have h : processAllTokens ("\"abc".toList) =
      .error (LexFailure.parsingError "String parsing error") := by
    simp [processAllTokens, runLexer, lexLoop, processIndent, processString,
      Except.map]
  exact ⟨h, by rw [h]; rfl⟩

/-- C2 (amended): each malformed string literal — end of input before
the closing delimiter, a bare newline or carriage return inside the
string, a backslash at end of input, or an unrecognised escape — makes
the lexer fail by throwing `ParsingError` (the spec and claim say
`LexerError`, but `Lexer::ProcessString` throws `ParsingError`); the
failure propagates so the whole tokenisation fails and every lexer
failure is a `ParsingError`. -/
theorem C2_malformed_string_fails (delim c e : Char) (rest : List Char) (acc : String)
    (st : LexState) :
    (processString delim [] acc =
      .error (LexFailure.parsingError "String parsing error"))
  ∧ ((delim = '"' ∨ delim = '\'') → (c = '\n' ∨ c = '\r') →
      processString delim (c :: rest) acc =
        .error (LexFailure.parsingError "Unexpected end of line"))
  ∧ ((delim = '"' ∨ delim = '\'') →
      processString delim ['\\'] acc =
        .error (LexFailure.parsingError "String parsing error"))
  ∧ ((delim = '"' ∨ delim = '\'') → escapeChar e = none →
      processString delim ('\\' :: e :: rest) acc =
        .error (LexFailure.parsingError ("Unrecognized escape sequence \\".push e)))
  ∧ (∀ e2, (delim = '"' ∨ delim = '\'') → processString delim rest "" = .error e2 →
      lexLoop st (delim :: rest) = .error e2)
  ∧ (∀ input e3, processAllTokens input = .error e3 →
      ∃ msg, e3 = LexFailure.parsingError msg) := by
  refine ⟨rfl, ?_, ?_, ?_, ?_, ?_⟩
  · intro hd hc
    rcases hd with hd | hd <;> rcases hc with hc | hc <;> subst hd <;> subst hc <;>
      rw [processString.eq_def] <;> simp
  · intro hd
    rcases hd with hd | hd <;> subst hd <;> rw [processString.eq_def] <;> simp
  · intro hd he
    rcases hd with hd | hd <;> subst hd <;> rw [processString.eq_def] <;> simp [he]
  · intro e2 hd hps
    rcases hd with hd | hd <;> subst hd <;> rw [lexLoop_cons] <;> simp [hps]
  · intro input e3 h
    unfold processAllTokens at h
    cases hr : runLexer input with
    | ok s => rw [hr] at h; simp [Except.map] at h
    | error e4 =>
      rw [hr] at h
      simp [Except.map] at h
      unfold runLexer at hr
      subst h
      exact lexLoop_error_parsing _ _ e4 hr

/-- Witness for C2 at concrete malformed strings. -/
theorem C2_malformed_string_fails_witness :
    processString '"' [] "" = .error (LexFailure.parsingError "String parsing error")
  ∧ processString '"' ['\n'] "" =
      .error (LexFailure.parsingError "Unexpected end of line")
  ∧ processString '"' ['\\'] "" =
      .error (LexFailure.parsingError "String parsing error")
  ∧ processString '"' ['\\', 'q'] "" =
      .error (LexFailure.parsingError ("Unrecognized escape sequence \\".push 'q'))
  ∧ lexLoop { tokens := [], prevIndent := 0 } ('"' :: ['a', 'b']) =
      .error (LexFailure.parsingError "String parsing error") := by
  refine ⟨?_, ?_, ?_, ?_, ?_⟩
  · exact (C2_malformed_string_fails '"' 'x' 'x' [] "" { tokens := [], prevIndent := 0 }).1
  · exact (C2_malformed_string_fails '"' '\n' 'x' [] ""
      { tokens := [], prevIndent := 0 }).2.1 (Or.inl rfl) (Or.inl rfl)
  · exact (C2_malformed_string_fails '"' 'x' 'x' [] ""
      { tokens := [], prevIndent := 0 }).2.2.1 (Or.inl rfl)
  · exact (C2_malformed_string_fails '"' 'x' 'q' [] ""
      { tokens := [], prevIndent := 0 }).2.2.2.1 (Or.inl rfl) (by decide)
  · exact (C2_malformed_string_fails '"' 'x' 'x' ['a', 'b'] ""
      { tokens := [], prevIndent := 0 }).2.2.2.2.1
      (LexFailure.parsingError "String parsing error") (Or.inl rfl) rfl

/-- Counterexample to C3 as stated: for `a\n  b` — indented last line
with no trailing newline — the lexer emits one `Indent` and no `Dedent`
at all, so the stream does not return to indent level zero before
`Eof`. -/
theorem C3_missing_dedent_at_eof :
    processAllTokens ("a\n  b".toList) =
      .ok [Tok.id "a", Tok.newline, Tok.indent, Tok.id "b", Tok.newline, Tok.eof]
  ∧ countTok Tok.indent
      [Tok.id "a", Tok.newline, Tok.indent, Tok.id "b", Tok.newline, Tok.eof] = 1
  ∧ countTok Tok.dedent
      [Tok.id "a", Tok.newline, Tok.indent, Tok.id "b", Tok.newline, Tok.eof] = 0 := by
  refine ⟨?_, by decide, by decide⟩
  simp [processAllTokens, runLexer, lexLoop, processIndent, processNextLine, pushTok,
    finishTokens, wordTok, isWordChar, isPunctChar, compOpTok, dropComment,
    processString, Except.map, List.getLast?]

/-- C3 (amended): for every input the lexer accepts, the emitted stream
ends in `Eof` preceded (when anything precedes it) by a `Newline` or a
`Dedent`; every prefix contains at least as many `Indent`s as `Dedent`s;
and the final surplus of `Indent`s over `Dedent`s equals the lexer's
final `prev_indent` — no `Dedent`s are emitted at end of input, so the
totals agree exactly when the final measured indentation is zero (in
particular not for an input whose last line is indented and has no
trailing newline). -/
theorem C3_indent_balance (input : List Char) (st : LexState)
    (h : runLexer input = .ok st) :
    processAllTokens input = .ok (finishTokens st)
  ∧ prefixBalanced (finishTokens st)
  ∧ countTok Tok.indent (finishTokens st) =
      countTok Tok.dedent (finishTokens st) + st.prevIndent
  ∧ (finishTokens st).getLast? = some Tok.eof
  ∧ (∀ pre, finishTokens st = pre ++ [Tok.eof] →
      pre = [] ∨ pre.getLast? = some Tok.newline ∨ pre.getLast? = some Tok.dedent)
  ∧ (st.prevIndent = 0 →
      countTok Tok.indent (finishTokens st) = countTok Tok.dedent (finishTokens st)) := by
  have hinv := runLexer_inv input st h
  have hci := countTok_finishTokens st Tok.indent (by simp) (by simp)
  have hcd := countTok_finishTokens st Tok.dedent (by simp) (by simp)
  refine ⟨?_, finishTokens_balanced st hinv, ?_, finishTokens_last st,
    finishTokens_structure st, ?_⟩
  · unfold processAllTokens
    rw [h]
    rfl
  · rw [hci, hcd]
    exact hinv.2.1
  · intro h0
    rw [hci, hcd, hinv.2.1, h0]
    omega

/-- Witness for C3 at the input `a\n  b\n`, which dedents back to level
zero before end of input. -/
theorem C3_indent_balance_witness :
    processAllTokens ("a\n  b\n".toList) =
      .ok [Tok.id "a", Tok.newline, Tok.indent, Tok.id "b", Tok.newline,
        Tok.dedent, Tok.eof]
  ∧ countTok Tok.indent
      [Tok.id "a", Tok.newline, Tok.indent, Tok.id "b", Tok.newline,
        Tok.dedent, Tok.eof] =
      countTok Tok.dedent
        [Tok.id "a", Tok.newline, Tok.indent, Tok.id "b", Tok.newline,
          Tok.dedent, Tok.eof]
  ∧ ([Tok.id "a", Tok.newline, Tok.indent, Tok.id "b", Tok.newline, Tok.dedent] = []
    ∨ [Tok.id "a", Tok.newline, Tok.indent, Tok.id "b", Tok.newline,
        Tok.dedent].getLast? = some Tok.newline
    ∨ [Tok.id "a", Tok.newline, Tok.indent, Tok.id "b", Tok.newline,
        Tok.dedent].getLast? = some Tok.dedent) := by
  have hrun : runLexer ("a\n  b\n".toList) =
      .ok { tokens := [Tok.id "a", Tok.newline, Tok.indent, Tok.id "b", Tok.newline,
        Tok.dedent], prevIndent := 0 } := by
    simp [runLexer, lexLoop, processIndent, processNextLine, pushTok, wordTok,
      isWordChar, isPunctChar, compOpTok, dropComment, processString,
      List.getLast?]
  have h := C3_indent_balance _ _ hrun
  refine ⟨?_, ?_, ?_⟩
  · rw [h.1]
    rfl
  · exact h.2.2.2.2.2 rfl
  · exact h.2.2.2.2.1
      [Tok.id "a", Tok.newline, Tok.indent, Tok.id "b", Tok.newline, Tok.dedent] rfl

/-- C9: an accepted token stream never contains two consecutive
`Newline` tokens, and a blank line — spaces followed by a line break —
following a line break contributes no tokens at all, so consecutive
blank lines collapse and at most one `Newline` separates the tokens of
successive non-blank lines. -/
theorem C9_no_consecutive_newlines :
    (∀ (input : List Char) (toks : List Tok), processAllTokens input = .ok toks →
      List.Chain' NotNN toks)
  ∧ (∀ (st : LexState) (n : Nat) (rest : List Char),
      lexLoop st ('\n' :: (List.replicate n ' ' ++ '\n' :: rest)) =
        lexLoop st ('\n' :: rest)) := by
  constructor
  · intro input toks h
    unfold processAllTokens at h
    cases hr : runLexer input with
    | error e => rw [hr] at h; simp [Except.map] at h
    | ok st =>
      rw [hr] at h
      simp [Except.map] at h
      subst h
      exact finishTokens_chain st (runLexer_inv input st hr)
  · exact lexLoop_blank_line

/-- Witness for C9: a concrete run with two consecutive blank lines
yields a single separating `Newline`, and the blank-line collapse
equation at concrete arguments. -/
theorem C9_no_consecutive_newlines_witness :
    List.Chain' NotNN [Tok.id "a", Tok.newline, Tok.id "b", Tok.newline, Tok.eof]
  ∧ lexLoop { tokens := [], prevIndent := 0 }
      ('\n' :: (List.replicate 2 ' ' ++ '\n' :: ['a'])) =
      lexLoop { tokens := [], prevIndent := 0 } ('\n' :: ['a']) := by
  constructor
  · apply C9_no_consecutive_newlines.1 ("a\n\n\nb".toList)
    simp [processAllTokens, runLexer, lexLoop, processIndent, processNextLine, pushTok,
      finishTokens, wordTok, isWordChar, isPunctChar, compOpTok, dropComment,
      processString, Except.map, List.getLast?]
  · exact C9_no_consecutive_newlines.2 { tokens := [], prevIndent := 0 } 2 ['a']

end parse


/-- Witness for C4 at a concrete value: a nonzero number is truthy. -/
theorem C4_istrue_characterization_witness :
    runtime.IsTrue (runtime.Obj.vNumber 5) = true := by
  exact (C4_istrue_characterization (runtime.Obj.vNumber 5)).mpr
    (Or.inl ⟨5, rfl, by decide⟩)
